import Mathlib

/-!
Verification development for the gomoku engine.

The board logic (`src/utils/gameLogic.ts`, here from `src/unnamed/part_001`),
the pattern scanner (`src/ai/patterns.ts`) and the MCTS worker
(`src/ai/mcts-worker.ts`) are shallowly embedded below.  Boards are lists of
rows of naturals (`0` empty, `1`/`2` the players), exactly matching the
`number[][]` representation of the source; reads out of range use the
default `0`, which is only ever reachable behind the same in-range guards
the source performs before each read.  Coordinates that are walked with
negative offsets are integers, as in the source.  The unbounded `while`
walks of the scanner are bounded by fuel `15`: along any of the four nonzero
directions used, at most 15 in-range cells exist, so the fuel is never
exhausted before the loop condition fails.
-/

def BOARD_SIZE : Nat := 15

/-- A board is a list of rows, each a list of cell values (0, 1 or 2). -/
abbrev Board := List (List Nat)

/-- Mirrors `createEmptyBoard`: a 15x15 grid of zeros. -/
def createEmptyBoard : Board :=
  List.replicate BOARD_SIZE (List.replicate BOARD_SIZE 0)

/-- Mirrors `copyBoard`: a deep copy, row by row, cell by cell. -/
def copyBoard (b : Board) : Board :=
  b.map (fun row => row.map (fun x => x))

/-- Reading `board[r][c]` at natural coordinates (defaults only reachable
out of range, where the source never reads without a guard). -/
def cellN (b : Board) (r c : Nat) : Nat :=
  (b.getD r []).getD c 0

/-- Reading `board[r][c]` at integer coordinates. -/
def cell (b : Board) (r c : Int) : Nat :=
  if 0 ≤ r ∧ 0 ≤ c then cellN b r.toNat c.toNat else 0

/-- The bounds test `r >= 0 && r < BOARD_SIZE && c >= 0 && c < BOARD_SIZE`. -/
def inB (r c : Int) : Prop :=
  0 ≤ r ∧ r < 15 ∧ 0 ≤ c ∧ c < 15

instance (r c : Int) : Decidable (inB r c) := by
  unfold inB; infer_instance

/-- Writing `board[r][c] = p` on a list-of-rows board. -/
def setCell (b : Board) (r c p : Nat) : Board :=
  b.set r ((b.getD r []).set c p)

/-- Mirrors `makeMove`: copy the board, then assign the target cell.  Note
the source performs no range or occupancy check here. -/
def makeMove (b : Board) (row col : Nat) (p : Nat) : Board :=
  setCell (copyBoard b) row col p

/-- Mirrors `isValidMove`: in range and empty. -/
def isValidMove (b : Board) (row col : Int) : Bool :=
  decide (0 ≤ row) && decide (row < 15) && decide (0 ≤ col) && decide (col < 15)
    && decide (cell b row col = 0)

/-- Mirrors the `GameResult` shape: a winner (or none) and the winning line. -/
structure GameResult where
  winner : Option Nat
  winningLine : Option (List (Int × Int))
  deriving DecidableEq

/-- Cells collected by one directional `while` walk of `checkWin`:
consecutive in-range cells holding `p`, starting at `(r, c)`. -/
def collectRun (b : Board) (p : Nat) : Nat → Int → Int → Int → Int → List (Int × Int)
  | 0, _, _, _, _ => []
  | fuel + 1, r, c, dr, dc =>
    if inB r c ∧ cell b r c = p then
      (r, c) :: collectRun b p fuel (r + dr) (c + dc) dr dc
    else []

/-- The four direction pairs of `checkWin`, in source order. -/
def dirPairs : List ((Int × Int) × (Int × Int)) :=
  [((0, 1), (0, -1)), ((1, 0), (-1, 0)), ((1, 1), (-1, -1)), ((1, -1), (-1, 1))]

/-- The direction loop of `checkWin`: first pair whose line reaches 5 wins. -/
def checkWinGo (b : Board) (p : Nat) (lr lc : Int) :
    List ((Int × Int) × (Int × Int)) → GameResult
  | [] => ⟨none, none⟩
  | (d1, d2) :: rest =>
    let line := (lr, lc) ::
      (collectRun b p 15 (lr + d1.1) (lc + d1.2) d1.1 d1.2 ++
       collectRun b p 15 (lr + d2.1) (lc + d2.2) d2.1 d2.2)
    if 5 ≤ line.length then ⟨some p, some line⟩ else checkWinGo b p lr lc rest

/-- Mirrors `checkWin`: the player at the last-played cell, an early return
when that cell is empty, then the four axis scans through it. -/
def checkWin (b : Board) (lastRow lastCol : Nat) : GameResult :=
  let player := cellN b lastRow lastCol
  if player = 0 then ⟨none, none⟩
  else checkWinGo b player lastRow lastCol dirPairs

/-- Mirrors the `Pattern` interface of the scanner. -/
structure Pattern where
  count : Nat
  openEnds : Nat
  deriving DecidableEq

/-- Length of one directional counting `while` of `detectPattern`:
consecutive in-range cells holding `p` from `(r, c)` along `(dr, dc)`. -/
def runLen (b : Board) (p : Nat) : Nat → Int → Int → Int → Int → Nat
  | 0, _, _, _, _ => 0
  | fuel + 1, r, c, dr, dc =>
    if inB r c ∧ cell b r c = p then 1 + runLen b p fuel (r + dr) (c + dc) dr dc
    else 0

/-- Mirrors `detectPattern`: a hypothetical stone of `p` at `(row, col)`
counts 1; both directional runs are added; one cell past each run end is
inspected for emptiness. -/
def detectPattern (b : Board) (row col dr dc : Int) (p : Nat) : Pattern :=
  let fwd := runLen b p 15 (row + dr) (col + dc) dr dc
  let bwd := runLen b p 15 (row - dr) (col - dc) (-dr) (-dc)
  let fr := row + dr * (fwd + 1)
  let fc := col + dc * (fwd + 1)
  let br := row - dr * (bwd + 1)
  let bc := col - dc * (bwd + 1)
  let e1 := if inB fr fc ∧ cell b fr fc = 0 then 1 else 0
  let e2 := if inB br bc ∧ cell b br bc = 0 then 1 else 0
  ⟨1 + fwd + bwd, e1 + e2⟩

/-- The direction list `[[1,0],[0,1],[1,1],[1,-1]]` shared by the finders. -/
def directions : List (Int × Int) := [(1, 0), (0, 1), (1, 1), (1, -1)]

/-- All cells in row-major order, the scan order of every finder. -/
def cellsRM : List (Nat × Nat) :=
  (List.range BOARD_SIZE).flatMap (fun r => (List.range BOARD_SIZE).map (fun c => (r, c)))

/-- The per-cell test of `findWinningMove`: empty, and some axis reaches 5. -/
def winningCell (b : Board) (p : Nat) (rc : Nat × Nat) : Bool :=
  decide (cellN b rc.1 rc.2 = 0) &&
    directions.any (fun d => decide (5 ≤ (detectPattern b rc.1 rc.2 d.1 d.2 p).count))

/-- The per-cell test of `findFour` and `getForcingMoves`: empty, and some
axis reaches 4. -/
def fourCell (b : Board) (p : Nat) (rc : Nat × Nat) : Bool :=
  decide (cellN b rc.1 rc.2 = 0) &&
    directions.any (fun d => decide (4 ≤ (detectPattern b rc.1 rc.2 d.1 d.2 p).count))

/-- The per-cell test of `findOpenThree`: empty, and some axis gives exactly
count 3 with both ends open. -/
def openThreeCell (b : Board) (p : Nat) (rc : Nat × Nat) : Bool :=
  decide (cellN b rc.1 rc.2 = 0) &&
    directions.any (fun d =>
      let pat := detectPattern b rc.1 rc.2 d.1 d.2 p
      decide (pat.count = 3) && decide (pat.openEnds = 2))

/-- Mirrors `findWinningMove`: the nested row-major loops with early return
become the first row-major cell passing `winningCell`. -/
def findWinningMove (b : Board) (p : Nat) : Option (Nat × Nat) :=
  cellsRM.find? (winningCell b p)

/-- Mirrors `findFour`: first row-major cell passing `fourCell`. -/
def findFour (b : Board) (p : Nat) : Option (Nat × Nat) :=
  cellsRM.find? (fourCell b p)

/-- Mirrors `findOpenThree`: the row-major loop pushes each qualifying cell
once (the inner direction loop breaks on the first hit), hence a filter. -/
def findOpenThree (b : Board) (p : Nat) : List (Nat × Nat) :=
  cellsRM.filter (openThreeCell b p)

/-- Mirrors `getForcingMoves`: all row-major cells passing `fourCell`. -/
def getForcingMoves (b : Board) (p : Nat) : List (Nat × Nat) :=
  cellsRM.filter (fourCell b p)

/-! The MCTS worker (`src/ai/mcts-worker.ts`).  `Math.random()` draws are
modelled by an oracle `rng : Nat → Nat` together with a draw counter that
is threaded through every function in call order; a draw of an index into
a list of length `len` becomes `rng k % len`.  `Date.now()` inside the VCF
solver is likewise modelled by an oracle `late : Nat → Bool` telling whether
the deadline has passed at the n-th entry of the solver. -/

def UCB1_CONSTANT : ℝ := 1.41

/-- Mirrors `toIndex`. -/
def toIndex (r c : Nat) : Nat := r * BOARD_SIZE + c

/-- Mirrors `fromIndex`. -/
def fromIndex (i : Nat) : Nat × Nat := (i / BOARD_SIZE, i % BOARD_SIZE)

/-- The ubiquitous `player === 1 ? 2 : 1`. -/
def opp (p : Nat) : Nat := if p = 1 then 2 else 1

/-- Whether the board holds any stone (the `hasStones` flag of
`getCandidateMoves`). -/
def hasStones (b : Board) : Bool :=
  (List.range (BOARD_SIZE * BOARD_SIZE)).any
    (fun i => decide (cellN b (i / BOARD_SIZE) (i % BOARD_SIZE) ≠ 0))

/-- The radius-2 offsets `-2..2` of the candidate scan. -/
def offs : List Int := [-2, -1, 0, 1, 2]

/-- Whether flat index `i` ends up marked in the `candidates` array of
`getCandidateMoves`: the source marks, for every occupied cell, each
in-range unoccupied cell within Chebyshev distance 2; as the offset grid is
symmetric this holds of `i` exactly when `i` is empty and some in-range
cell within distance 2 of it is occupied. -/
def candCell (b : Board) (i : Nat) : Bool :=
  decide (cellN b (i / BOARD_SIZE) (i % BOARD_SIZE) = 0) &&
    offs.any (fun dr => offs.any (fun dc =>
      let nr := ((i / BOARD_SIZE : Nat) : Int) + dr
      let nc := ((i % BOARD_SIZE : Nat) : Int) + dc
      decide (inB nr nc) && decide (cell b nr nc ≠ 0)))

/-- Mirrors `getCandidateMoves`: the single center cell on an empty board,
else all marked candidates collected in ascending flat order. -/
def getCandidateMoves (b : Board) : List Nat :=
  if hasStones b then
    (List.range (BOARD_SIZE * BOARD_SIZE)).filter (candCell b)
  else
    let center := BOARD_SIZE / 2
    [toIndex center center]

/-- The per-candidate score of `getMoveWithInfluence`: occupied in-range
neighbors within Chebyshev distance 2, the cell itself excluded. -/
def influenceScore (b : Board) (i : Nat) : Nat :=
  (offs.flatMap (fun dr => offs.map (fun dc => (dr, dc)))).countP
    (fun d =>
      !(decide (d.1 = 0) && decide (d.2 = 0)) &&
        (let nr := ((i / BOARD_SIZE : Nat) : Int) + d.1
         let nc := ((i % BOARD_SIZE : Nat) : Int) + d.2
         decide (inB nr nc) && decide (cell b nr nc ≠ 0)))

/-- The accumulation loop of `getMoveWithInfluence`: best score seen so far
(starting at `-1`) and the list of candidates attaining it, in order. -/
def bestMovesOf (b : Board) (cands : List Nat) : List Nat :=
  (cands.foldl
    (fun acc i =>
      let sc : Int := influenceScore b i
      if acc.1 < sc then (sc, [i])
      else if sc = acc.1 then (acc.1, acc.2 ++ [i])
      else acc)
    ((-1 : Int), ([] : List Nat))).2

/-- Mirrors `getMoveWithInfluence`, the random draw passed in as `d`:
`none` for an empty candidate list, else a uniformly drawn best-scoring
candidate. -/
def getMoveWithInfluence (b : Board) (cands : List Nat) (d : Nat) : Option Nat :=
  if cands = [] then none
  else
    let best := bestMovesOf b cands
    some (best.getD (d % best.length) 0)

/-- The `for` loop over forcing moves inside `solveVCF`, with the recursive
call abstracted as `recur` (it carries the draw counter for the deadline
oracle). -/
def vcfLoop (recur : Board → Nat → Option (Nat × Nat) × Nat)
    (b : Board) (p : Nat) :
    List (Nat × Nat) → Nat → Option (Nat × Nat) × Nat
  | [], k => (none, k)
  | (r, c) :: rest, k =>
    let nextBoard := makeMove b r c p
    if (checkWin nextBoard r c).winner = some p then (some (r, c), k)
    else
      match findWinningMove nextBoard p with
      | none => vcfLoop recur b p rest k
      | some t =>
        let blocked := makeMove nextBoard t.1 t.2 (opp p)
        if (checkWin blocked t.1 t.2).winner = some (opp p) then
          vcfLoop recur b p rest k
        else
          match recur blocked k with
          | (some _, k2) => (some (r, c), k2)
          | (none, k2) => vcfLoop recur b p rest k2

/-- Mirrors `solveVCF`: no-win at depth 0 or past the deadline, no-win with
no forcing moves, else the chained-four search over the forcing moves.  The
deadline test `Date.now() - startTime > VCF_TIME_LIMIT` is the oracle
`late` applied to the entry counter. -/
def solveVCF (late : Nat → Bool) (p : Nat) :
    Nat → Board → Nat → Option (Nat × Nat) × Nat
  | 0, _, k => (none, k + 1)
  | depth + 1, b, k =>
    if late k then (none, k + 1)
    else
      let fm := getForcingMoves b p
      if fm = [] then (none, k + 1)
      else vcfLoop (fun b2 k2 => solveVCF late p depth b2 k2) b p fm (k + 1)

/-- Appending to a JS `Set` keeps first-insertion order and drops repeats. -/
def addUnique (l : List Nat) (x : Nat) : List Nat :=
  if x ∈ l then l else l ++ [x]

/-- Mirrors `getExpansionMoves`: under an opponent five- or four-threat the
tactical set (block cell, opponent forcing cells, own forcing cells) is
gathered, an own immediate win short-circuits to a single move, else the
tactical set is returned when nonempty; with no opponent threat the plain
radius-2 candidates are returned.  Note the own-win short-circuit sits
inside the threat branch. -/
def getExpansionMoves (b : Board) (p : Nat) : List Nat :=
  let opponent := opp p
  let blockWin := findWinningMove b opponent
  let oppForcing := getForcingMoves b opponent
  if blockWin.isSome ∨ oppForcing ≠ [] then
    let t1 := match blockWin with
      | some w => [toIndex w.1 w.2]
      | none => []
    let t2 := oppForcing.map (fun rc => toIndex rc.1 rc.2)
    let t3 := (getForcingMoves b p).map (fun rc => toIndex rc.1 rc.2)
    let tactical := (t1 ++ t2 ++ t3).foldl addUnique []
    match findWinningMove b p with
    | some w => [toIndex w.1 w.2]
    | none => if tactical ≠ [] then tactical else getCandidateMoves b
  else getCandidateMoves b

/-! The MCTS tree.  The source stores parent pointers and mutates nodes in
place; here a node owns its children (as the source's ownership comment
says), the path from the root to the selected node is the recursion spine,
and the backpropagation walk over parent pointers becomes the updates each
recursion level applies to its own node on the way back up — the same set
of nodes is incremented.  JS float wins accumulators hold only sums of 0,
1/2 and 1, hence exact rationals.  The UCB1 value is a JS float; it is
modelled as an extended real, `Math.sqrt`/`Math.log` as their exact
counterparts and `Infinity` as the top element. -/

/-- Mirrors the `MCTSNode` interface: board snapshot, creating move, the
untried move indices, visit and win accumulators, the mover, and the
children keyed by flat move index in insertion order. -/
inductive MCTSNode : Type where
  | mk (board : Board) (move : Option (Nat × Nat)) (untried : List Nat)
      (visits : Nat) (wins : ℚ) (player : Nat)
      (children : List (Nat × MCTSNode))

def MCTSNode.board : MCTSNode → Board
  | .mk b _ _ _ _ _ _ => b

def MCTSNode.move : MCTSNode → Option (Nat × Nat)
  | .mk _ m _ _ _ _ _ => m

def MCTSNode.untried : MCTSNode → List Nat
  | .mk _ _ u _ _ _ _ => u

def MCTSNode.visits : MCTSNode → Nat
  | .mk _ _ _ v _ _ _ => v

def MCTSNode.wins : MCTSNode → ℚ
  | .mk _ _ _ _ w _ _ => w

def MCTSNode.player : MCTSNode → Nat
  | .mk _ _ _ _ _ p _ => p

def MCTSNode.children : MCTSNode → List (Nat × MCTSNode)
  | .mk _ _ _ _ _ _ c => c

/-- Mirrors `createNode` (the parent back-reference is implicit in the
tree): copied board, the TSS untried moves, zeroed counters, no children. -/
def createNode (b : Board) (mv : Option (Nat × Nat)) (p : Nat) : MCTSNode :=
  .mk (copyBoard b) mv (getExpansionMoves b p) 0 0 p []

/-- Mirrors `ucb1`: infinite priority for an unvisited child, else the
inverted win rate plus the exploring square-root term. -/
noncomputable def ucb1 (child : MCTSNode) (parentVisits : Nat) : EReal :=
  if child.visits = 0 then ⊤
  else
    (((1 - (child.wins : ℝ) / (child.visits : ℝ)) +
        UCB1_CONSTANT * Real.sqrt (Real.log (parentVisits : ℝ) / (child.visits : ℝ)) : ℝ) :
      EReal)

/-- One step of the `selectChild` loop: the accumulator carries the index
of the next entry, the index of the best child so far and its value
(starting from `-Infinity`); only a strictly larger value replaces it. -/
noncomputable def selectStep (pv : Nat) (acc : Nat × Nat × EReal)
    (entry : Nat × MCTSNode) : Nat × Nat × EReal :=
  let v := ucb1 entry.2 pv
  if acc.2.2 < v then (acc.1 + 1, acc.1, v) else (acc.1 + 1, acc.2.1, acc.2.2)

/-- Mirrors `selectChild`, returning the position of the chosen child in
the insertion-ordered children list. -/
noncomputable def selectChildIdx (n : MCTSNode) : Nat :=
  (n.children.foldl (selectStep n.visits) (0, 0, ⊥)).2.1

theorem selectStep_foldl_bound (pv : Nat) :
    ∀ (l : List (Nat × MCTSNode)) (j bJ : Nat) (v : EReal),
      (l.foldl (selectStep pv) (j, bJ, v)).2.1 = bJ ∨
        (l.foldl (selectStep pv) (j, bJ, v)).2.1 < j + l.length := by
  intro l
  induction l with
  | nil => intro j bJ v; left; rfl
  | cons a t ih =>
    intro j bJ v
    simp only [List.foldl_cons, selectStep]
    by_cases h : v < ucb1 a.2 pv
    · simp only [h, if_pos]
      rcases ih (j + 1) j (ucb1 a.2 pv) with h2 | h2
      · right; rw [h2, List.length_cons]; omega
      · right; simp only [List.length_cons]; omega
    · simp only [h, if_neg, not_false_iff]
      rcases ih (j + 1) bJ v with h2 | h2
      · left; exact h2
      · right; simp only [List.length_cons]; omega

theorem selectChildIdx_lt (n : MCTSNode) (h : n.children ≠ []) :
    selectChildIdx n < n.children.length := by
  have hlen : 0 < n.children.length := List.length_pos.mpr h
  unfold selectChildIdx
  rcases selectStep_foldl_bound n.visits n.children 0 0 ⊥ with h2 | h2
  · rw [h2]; exact hlen
  · simpa using h2

/-- The heuristic rollout loop inside `simulate`, fuel 225 plies: take an
own win, else block the opponent win, else an influence-biased random
candidate; stop with 1 or 0 on a five, 1/2 on a safety stop or when fuel
runs out.  The mutation `currentBoard[r][c] = currentPlayer` becomes
`setCell` (the source mutates its private copy of the board). -/
def simLoop (rng : Nat → Nat) (ai : Nat) : Nat → Board → Nat → Nat → ℚ × Nat
  | 0, _, _, k => (1 / 2, k)
  | fuel + 1, board, cur, k =>
    let pick : Option Nat × Nat :=
      match findWinningMove board cur with
      | some w => (some (toIndex w.1 w.2), k)
      | none =>
        match findWinningMove board (opp cur) with
        | some w => (some (toIndex w.1 w.2), k)
        | none =>
          match getMoveWithInfluence board (getCandidateMoves board) (rng k) with
          | none => (none, k)
          | some mi => (some mi, k + 1)
    match pick with
    | (none, k2) => (1 / 2, k2)
    | (some mi, k2) =>
      let rc := fromIndex mi
      if cellN board rc.1 rc.2 ≠ 0 then (1 / 2, k2)
      else
        let b2 := setCell board rc.1 rc.2 cur
        match (checkWin b2 rc.1 rc.2).winner with
        | some w => (if w = ai then 1 else 0, k2)
        | none => simLoop rng ai fuel b2 (opp cur) k2

/-- Mirrors `simulate` (the board copy it takes is the same value). -/
def simulate (rng : Nat → Nat) (ai : Nat) (b : Board) (startP k : Nat) : ℚ × Nat :=
  simLoop rng ai 225 b startP k

instance (l : List (Nat × MCTSNode)) : Decidable (l = []) :=
  match l with
  | [] => .isTrue rfl
  | _ :: _ => .isFalse (fun h => List.noConfusion h)

/-- One iteration of the MCTS loop of `findBestMove`: selection descends
through UCB1-best children while untried moves are gone and children
exist; at the stopping node either the lazily detected terminal result, or
expansion (a no-op on a saturated node) followed by a rollout; the result
is backpropagated, incrementing `visits` once and folding the result into
`wins` at every node on the walked path, root included.  Returns the
updated tree, the rollout result and the advanced draw counter. -/
noncomputable def mctsIterate (rng : Nat → Nat) (ai : Nat) :
    MCTSNode → Nat → MCTSNode × ℚ × Nat
  | .mk board mv untried visits wins player children, k =>
    if hsel : untried = [] ∧ children ≠ [] then
      let j := selectChildIdx (.mk board mv untried visits wins player children)
      let entry := children.get
        ⟨j, selectChildIdx_lt (.mk board mv untried visits wins player children) hsel.2⟩
      let res := mctsIterate rng ai entry.2 k
      let result := res.2.1
      (.mk board mv untried (visits + 1)
          (wins + (if player = ai then result else 1 - result)) player
          (children.set j (entry.1, res.1)),
        result, res.2.2)
    else
      let wstate : Option Nat :=
        match mv with
        | some m => (checkWin board m.1 m.2).winner
        | none => none
      match wstate with
      | some w =>
        let result : ℚ := if w = ai then 1 else 0
        (.mk board mv untried (visits + 1)
            (wins + (if player = ai then result else 1 - result)) player children,
          result, k)
      | none =>
        match untried with
        | [] =>
          let sp := if player = ai then opp ai else ai
          let sim := simulate rng ai board sp k
          (.mk board mv untried (visits + 1)
              (wins + (if player = ai then sim.1 else 1 - sim.1)) player children,
            sim.1, sim.2)
        | u0 :: urest =>
          let jj := rng k % (u0 :: urest).length
          let moveIdx := (u0 :: urest).getD jj 0
          let untried2 := (u0 :: urest).eraseIdx jj
          let rc := fromIndex moveIdx
          let nextPlayer := opp player
          let newBoard := makeMove board rc.1 rc.2 nextPlayer
          let sp := if nextPlayer = ai then opp ai else ai
          let sim := simulate rng ai newBoard sp (k + 1)
          let childDelta : ℚ := if nextPlayer = ai then sim.1 else 1 - sim.1
          let child := MCTSNode.mk (copyBoard newBoard) (some rc)
            (getExpansionMoves newBoard nextPlayer) 1 childDelta nextPlayer []
          (.mk board mv untried2 (visits + 1)
              (wins + (if player = ai then sim.1 else 1 - sim.1)) player
              (children ++ [(moveIdx, child)]),
            sim.1, sim.2)
termination_by n _ => sizeOf n
decreasing_by
  have key : ∀ x : Nat × MCTSNode, x ∈ children →
      sizeOf x.2 < sizeOf (MCTSNode.mk board mv untried visits wins player children) := by
    intro x hx
    have h1 : sizeOf x < sizeOf children := List.sizeOf_lt_of_mem hx
    have h2 : sizeOf x.2 < sizeOf x := by
      cases x with
      | mk a b => simp only [Prod.mk.sizeOf_spec]; omega
    have h3 : sizeOf children <
        sizeOf (MCTSNode.mk board mv untried visits wins player children) := by
      simp only [MCTSNode.mk.sizeOf_spec]; omega
    omega
  exact key _ (List.get_mem _ _ _)

/-- The `for` loop of `findBestMove` over the iteration budget: each pass
runs one `mctsIterate` on the current tree. -/
noncomputable def mctsLoop (rng : Nat → Nat) (ai : Nat) :
    Nat → MCTSNode → Nat → MCTSNode × Nat
  | 0, root, k => (root, k)
  | i + 1, root, k =>
    let step := mctsIterate rng ai root k
    mctsLoop rng ai i step.1 step.2.2

/-! Helper facts and concrete boards. -/

/-- A board value shaped as the source invariantly keeps it: 15 rows of 15. -/
def WF (b : Board) : Prop :=
  b.length = 15 ∧ ∀ row ∈ b, row.length = 15

instance (b : Board) : Decidable (WF b) := by
  unfold WF; infer_instance

/-- Row-major order on coordinates: earlier row, or same row and earlier
column. -/
def lexLt (a b : Nat × Nat) : Prop :=
  a.1 < b.1 ∨ (a.1 = b.1 ∧ a.2 < b.2)

instance (a b : Nat × Nat) : Decidable (lexLt a b) := by
  unfold lexLt; infer_instance

/-- The board whose only stones are player 1 stones at row 7, columns 4
through 7. -/
def b74 : Board :=
  makeMove (makeMove (makeMove (makeMove createEmptyBoard 7 4 1) 7 5 1) 7 6 1) 7 7 1

/-- As in the test board of the spec plus an opposing vertical four:
player 2 also holds rows 0 through 3 of column 0. -/
def bTwoThreats : Board :=
  makeMove (makeMove (makeMove (makeMove b74 0 0 2) 1 0 2) 2 0 2) 3 0 2

theorem copyBoard_eq (b : Board) : copyBoard b = b := by
  unfold copyBoard
  simp

theorem cell_natCast (b : Board) (r c : Nat) : cell b (r : Int) (c : Int) = cellN b r c := by
  unfold cell
  rw [if_pos ⟨Int.natCast_nonneg r, Int.natCast_nonneg c⟩]
  simp

theorem cellN_set_self (b : Board) (r c p : Nat) (hb : WF b) (hr : r < 15) (hc : c < 15) :
    cellN (setCell b r c p) r c = p := by
  obtain ⟨hlen, hrows⟩ := hb
  have hrl : r < b.length := by omega
  unfold setCell cellN
  simp only [List.getD_eq_getElem?_getD]
  rw [List.getElem?_set_self (by simpa using hrl), Option.getD_some]
  have hrow : b[r]?.getD [] ∈ b := by
    rw [List.getElem?_eq_getElem hrl, Option.getD_some]
    exact List.getElem_mem hrl
  have hcl : c < (b[r]?.getD ([] : List Nat)).length := by
    rw [hrows _ hrow]; exact hc
  rw [List.getElem?_set_self (by simpa using hcl), Option.getD_some]

theorem cellN_set_ne (b : Board) (r c p r2 c2 : Nat) (h : (r2, c2) ≠ (r, c)) :
    cellN (setCell b r c p) r2 c2 = cellN b r2 c2 := by
  unfold setCell cellN
  simp only [List.getD_eq_getElem?_getD]
  by_cases hre : r2 = r
  · subst hre
    have hcne : c ≠ c2 := by
      intro hh
      exact h (by rw [hh])
    by_cases hrl : r2 < b.length
    · rw [List.getElem?_set_self (by simpa using hrl), Option.getD_some,
        List.getElem?_set_ne hcne]
    · have h1 : b.length ≤ r2 := by omega
      have h2 : (b.set r2 ((b[r2]?.getD []).set c p)).length ≤ r2 := by
        simpa using h1
      rw [List.getElem?_eq_none h2, List.getElem?_eq_none (l := b) h1]
  · have hne : r ≠ r2 := fun hh => hre hh.symm
    rw [List.getElem?_set_ne hne]

/-- Claim C1 (amended): `makeMove` itself performs no range or occupancy
check and always returns a board with the target cell assigned, even on an
occupied target; the validity test is the separate `isValidMove`, which on
an in-range coordinate holds exactly when the target cell is empty. -/
theorem makeMove_no_validation (b : Board) (r c p : Nat)
    (hb : WF b) (hr : r < 15) (hc : c < 15) :
    cellN (makeMove b r c p) r c = p ∧
      (isValidMove b (r : Int) (c : Int) = true ↔ cellN b r c = 0) := by
  constructor
  · unfold makeMove
    rw [copyBoard_eq]
    exact cellN_set_self b r c p hb hr hc
  · unfold isValidMove
    rw [cell_natCast]
    simp only [Bool.and_eq_true, decide_eq_true_eq]
    constructor
    · intro hh; exact hh.2
    · intro hh
      refine ⟨⟨⟨⟨Int.natCast_nonneg r, ?_⟩, Int.natCast_nonneg c⟩, ?_⟩, hh⟩
      · exact_mod_cast hr
      · exact_mod_cast hc

/-- Witness for C1: the target (0,0) of the inner board is occupied by
player 2 (so the move is invalid), yet `makeMove` returns a board holding
player 1 there. -/
theorem makeMove_no_validation_witness :
    cellN (makeMove (makeMove createEmptyBoard 0 0 2) 0 0 1) 0 0 = 1 ∧
      (isValidMove (makeMove createEmptyBoard 0 0 2) (0 : Int) (0 : Int) = true ↔
        cellN (makeMove createEmptyBoard 0 0 2) 0 0 = 0) :=
  makeMove_no_validation (makeMove createEmptyBoard 0 0 2) 0 0 1
    (by decide) (by decide) (by decide)

/-- Counterexample to C1 as stated: on a board whose cell (0,0) is already
occupied (marked invalid by `isValidMove`), `makeMove` does not fail — it
silently produces a board with the occupied cell overwritten to player 1. -/
theorem makeMove_silent_overwrite :
    isValidMove (makeMove createEmptyBoard 0 0 2) 0 0 = false ∧
      cellN (makeMove (makeMove createEmptyBoard 0 0 2) 0 0 1) 0 0 = 1 := by
  decide

/-- Claim C3: `makeMove` does not mutate its input (`copyBoard` returns an
equal fresh value and the input value is untouched); the returned board
holds the player at the target and agrees with the input at every other
in-range cell. -/
theorem makeMove_frame (b : Board) (r c p : Nat)
    (hb : WF b) (hr : r < 15) (hc : c < 15) :
    copyBoard b = b ∧
      cellN (makeMove b r c p) r c = p ∧
      ∀ r2 c2 : Nat, r2 < 15 → c2 < 15 → (r2, c2) ≠ (r, c) →
        cellN (makeMove b r c p) r2 c2 = cellN b r2 c2 := by
  refine ⟨copyBoard_eq b, ?_, ?_⟩
  · unfold makeMove
    rw [copyBoard_eq]
    exact cellN_set_self b r c p hb hr hc
  · intro r2 c2 _ _ hne
    unfold makeMove
    rw [copyBoard_eq]
    exact cellN_set_ne b r c p r2 c2 hne

/-- Witness for C3 at the empty board and target (7,7). -/
theorem makeMove_frame_witness :
    cellN (makeMove createEmptyBoard 7 7 1) 7 7 = 1 ∧
      cellN (makeMove createEmptyBoard 7 7 1) 0 0 = cellN createEmptyBoard 0 0 :=
  ⟨(makeMove_frame createEmptyBoard 7 7 1 (by decide) (by decide) (by decide)).2.1,
   (makeMove_frame createEmptyBoard 7 7 1 (by decide) (by decide) (by decide)).2.2
     0 0 (by decide) (by decide) (by decide)⟩

/-- Claim C5: the VCF solver returns no-win whenever the remaining depth is
zero, for every board, player, deadline oracle and entry counter — however
many forcing moves exist. -/
theorem solveVCF_depth_zero (late : Nat → Bool) (p : Nat) (b : Board) (k : Nat) :
    (solveVCF late p 0 b k).1 = none := rfl

/-- Claim C7: on the stoneless board the candidate generator returns
exactly the center cell (row 7, column 7). -/
theorem candidates_of_empty_board :
    getCandidateMoves createEmptyBoard = [toIndex 7 7] := by decide

/-- Claim C9: when the cell at the given last-played in-range coordinate is
empty, `checkWin` answers through its early return — no winner, no winning
line, no axis scanned. -/
theorem checkWin_empty_cell (b : Board) (r c : Nat) (hr : r < 15) (hc : c < 15)
    (h : cellN b r c = 0) : checkWin b r c = ⟨none, none⟩ := by
  unfold checkWin
  simp [h]

/-- Witness for C9 at the empty board and cell (3,4). -/
theorem checkWin_empty_cell_witness : checkWin createEmptyBoard 3 4 = ⟨none, none⟩ :=
  checkWin_empty_cell createEmptyBoard 3 4 (by decide) (by decide) (by decide)

theorem mem_cellsRM (rc : Nat × Nat) : rc ∈ cellsRM ↔ rc.1 < 15 ∧ rc.2 < 15 := by
  unfold cellsRM BOARD_SIZE
  cases rc with
  | mk r c =>
    simp only [List.mem_flatMap, List.mem_map, List.mem_range, Prod.mk.injEq]
    constructor
    · rintro ⟨a, ha, bb, hb, rfl, rfl⟩
      exact ⟨ha, hb⟩
    · rintro ⟨hr, hc⟩
      exact ⟨r, hr, c, hc, rfl, rfl⟩

set_option maxRecDepth 100000 in
theorem cellsRM_pairwise : List.Pairwise lexLt cellsRM := by decide

theorem cellsRM_nodup : cellsRM.Nodup := by
  refine cellsRM_pairwise.imp ?_
  intro a b hab heq
  subst heq
  rcases hab with h | h
  · exact lt_irrefl _ h
  · exact lt_irrefl _ h.2

theorem find?_pairwise_first {α : Type} {R : α → α → Prop} {p : α → Bool} :
    ∀ {l : List α} {x : α}, l.Pairwise R → l.find? p = some x →
      ∀ y ∈ l, p y = true → x = y ∨ R x y := by
  intro l
  induction l with
  | nil => intro x _ hfind; simp at hfind
  | cons a t ih =>
    intro x hpw hfind y hy hpy
    by_cases hpa : p a = true
    · rw [List.find?_cons_of_pos _ hpa] at hfind
      have hx : a = x := by injection hfind
      rcases List.mem_cons.mp hy with rfl | hyt
      · left; exact hx.symm
      · right
        rw [← hx]
        exact (List.pairwise_cons.mp hpw).1 y hyt
    · rw [List.find?_cons_of_neg _ (by simpa using hpa)] at hfind
      rcases List.mem_cons.mp hy with rfl | hyt
      · exact absurd hpy hpa
      · exact ih (List.pairwise_cons.mp hpw).2 hfind y hyt hpy

/-- Claim C4: the winning-move finder scans empty cells in row-major order
and returns the first one at which some axis reaches count 5 — any other
qualifying cell is the same cell or strictly later in row-major order; on
the board with player 1 stones at row 7, columns 4 through 7, it returns
(7,3), the left extension, rather than (7,8). -/
theorem findWinningMove_row_major :
    (∀ (b : Board) (p r c : Nat), findWinningMove b p = some (r, c) →
        winningCell b p (r, c) = true ∧
          ∀ r2 c2 : Nat, r2 < 15 → c2 < 15 → winningCell b p (r2, c2) = true →
            (r = r2 ∧ c = c2) ∨ lexLt (r, c) (r2, c2)) ∧
      findWinningMove b74 1 = some (7, 3) := by
  constructor
  · intro b p r c hfind
    refine ⟨List.find?_some hfind, ?_⟩
    intro r2 c2 h2r h2c hpred
    have hmem : (r2, c2) ∈ cellsRM := (mem_cellsRM (r2, c2)).mpr ⟨h2r, h2c⟩
    rcases find?_pairwise_first cellsRM_pairwise hfind (r2, c2) hmem hpred with h | h
    · cases h
      left
      exact ⟨rfl, rfl⟩
    · right
      exact h
  · decide

/-- Witness for C4: on the four-in-a-row board the returned cell (7,3) is a
winning cell and precedes the other winning cell (7,8) in row-major order. -/
theorem findWinningMove_row_major_witness :
    winningCell b74 1 (7, 3) = true ∧
      (((7 : Nat) = 7 ∧ (3 : Nat) = 8) ∨ lexLt (7, 3) (7, 8)) :=
  ⟨(findWinningMove_row_major.1 b74 1 7 3 (by decide)).1,
   (findWinningMove_row_major.1 b74 1 7 3 (by decide)).2 7 8
     (by decide) (by decide) (by decide)⟩

/-- Claim C10: every coordinate produced by `findWinningMove`, `findFour`,
`findOpenThree` or `getForcingMoves` is in bounds and empty on the input
board, and `findOpenThree` lists each qualifying cell at most once. -/
theorem finders_in_bounds_and_empty (b : Board) (p : Nat) :
    (∀ r c : Nat, findWinningMove b p = some (r, c) →
        r < 15 ∧ c < 15 ∧ cellN b r c = 0) ∧
      (∀ r c : Nat, findFour b p = some (r, c) →
        r < 15 ∧ c < 15 ∧ cellN b r c = 0) ∧
      (∀ rc ∈ findOpenThree b p, rc.1 < 15 ∧ rc.2 < 15 ∧ cellN b rc.1 rc.2 = 0) ∧
      (findOpenThree b p).Nodup ∧
      (∀ rc ∈ getForcingMoves b p, rc.1 < 15 ∧ rc.2 < 15 ∧ cellN b rc.1 rc.2 = 0) := by
  have hwin : ∀ r c : Nat, winningCell b p (r, c) = true → cellN b r c = 0 := by
    intro r c hh
    unfold winningCell at hh
    rw [Bool.and_eq_true] at hh
    exact of_decide_eq_true hh.1
  have hfour : ∀ r c : Nat, fourCell b p (r, c) = true → cellN b r c = 0 := by
    intro r c hh
    unfold fourCell at hh
    rw [Bool.and_eq_true] at hh
    exact of_decide_eq_true hh.1
  have hthree : ∀ r c : Nat, openThreeCell b p (r, c) = true → cellN b r c = 0 := by
    intro r c hh
    unfold openThreeCell at hh
    rw [Bool.and_eq_true] at hh
    exact of_decide_eq_true hh.1
  refine ⟨?_, ?_, ?_, ?_, ?_⟩
  · intro r c hfind
    have hmem := (mem_cellsRM _).mp (List.mem_of_find?_eq_some hfind)
    exact ⟨hmem.1, hmem.2, hwin r c (List.find?_some hfind)⟩
  · intro r c hfind
    have hmem := (mem_cellsRM _).mp (List.mem_of_find?_eq_some hfind)
    exact ⟨hmem.1, hmem.2, hfour r c (List.find?_some hfind)⟩
  · intro rc hrc
    obtain ⟨hmem, hpred⟩ := List.mem_filter.mp hrc
    have hb := (mem_cellsRM _).mp hmem
    exact ⟨hb.1, hb.2, hthree rc.1 rc.2 hpred⟩
  · exact cellsRM_nodup.filter _
  · intro rc hrc
    obtain ⟨hmem, hpred⟩ := List.mem_filter.mp hrc
    have hb := (mem_cellsRM _).mp hmem
    exact ⟨hb.1, hb.2, hfour rc.1 rc.2 hpred⟩

/-- Witness for C10: instantiated at the four-in-a-row board, where the
winning-move finder returns (7,3), an in-bounds empty cell. -/
theorem finders_in_bounds_and_empty_witness :
    (7 : Nat) < 15 ∧ (3 : Nat) < 15 ∧ cellN b74 7 3 = 0 :=
  (finders_in_bounds_and_empty b74 1).1 7 3 (by decide)

/-- Counterexample to C2 as stated: on the board whose only stones are
player 1 stones at row 7, columns 4 through 7, player 1 has the immediate
winning move (7,3), yet — the opponent having no winning or forcing move —
`getExpansionMoves` does not return that single move: it falls through to
the radius-2 candidate list.  The own-win short-circuit of the source sits
inside the opponent-threat branch. -/
theorem expansion_ignores_win_without_threat :
    findWinningMove b74 1 = some (7, 3) ∧
      getExpansionMoves b74 1 ≠ [toIndex 7 3] := by
  constructor
  · decide
  · decide

/-- Claim C2 (amended): when the opponent is threatening (has an immediate
winning move or any forcing move) and the player has an immediate winning
move, `getExpansionMoves` returns exactly that single move; without an
opponent threat the function returns the plain candidate set even when the
player can win at once. -/
theorem expansion_win_under_threat (b : Board) (p : Nat)
    (hth : (findWinningMove b (opp p)).isSome = true ∨ getForcingMoves b (opp p) ≠ [])
    (r c : Nat) (hwin : findWinningMove b p = some (r, c)) :
    getExpansionMoves b p = [toIndex r c] := by
  unfold getExpansionMoves
  rw [hwin, if_pos hth]

/-- Witness for C2 (amended): player 1 holds an open four on row 7 and
player 2 a four on column 0, so both the threat hypothesis and the own-win
hypothesis hold; the generator returns only the winning cell (7,3). -/
theorem expansion_win_under_threat_witness :
    getExpansionMoves bTwoThreats 1 = [toIndex 7 3] :=
  expansion_win_under_threat bTwoThreats 1 (by decide) 7 3 (by decide)

set_option maxHeartbeats 1000000 in
theorem mctsIterate_visits (rng : Nat → Nat) (ai : Nat) (n : MCTSNode) (k : Nat) :
    ((mctsIterate rng ai n k).1).visits = n.visits + 1 := by
  cases n with
  | mk board mv untried visits wins player children =>
    rw [mctsIterate.eq_def]
    repeat' split
    all_goals try simp_all [MCTSNode.mk.injEq, MCTSNode.visits]
    all_goals (repeat' split)
    all_goals try simp_all [MCTSNode.visits]
    all_goals try (rename_i heq2; split at heq2 <;> simp_all)

theorem mctsLoop_visits (rng : Nat → Nat) (ai : Nat) :
    ∀ (i : Nat) (root : MCTSNode) (k : Nat),
      ((mctsLoop rng ai i root k).1).visits = root.visits + i := by
  intro i
  induction i with
  | zero => intro root k; rfl
  | succ i ih =>
    intro root k
    rw [mctsLoop]
    rw [ih]
    rw [mctsIterate_visits]
    omega

/-- Claim C6: running the MCTS loop for exactly K iterations from a fresh
root increments the root visit counter once per iteration — terminal and
expansion branches alike backpropagate through the root exactly once — so
it ends at exactly K. -/
theorem mcts_root_visits (rng : Nat → Nat) (b : Board) (p ai : Nat) (K k : Nat)
    (hlegal : ∃ r c : Nat, r < 15 ∧ c < 15 ∧ cellN b r c = 0) :
    ((mctsLoop rng ai K (createNode b none p) k).1).visits = K := by
  rw [mctsLoop_visits]
  simp [createNode, MCTSNode.visits]

/-- Witness for C6: three iterations on the empty board give root visits 3. -/
theorem mcts_root_visits_witness :
    ((mctsLoop (fun _ => 0) 1 3 (createNode createEmptyBoard none 1) 0).1).visits = 3 :=
  mcts_root_visits (fun _ => 0) createEmptyBoard 1 1 3 0
    ⟨0, 0, by decide, by decide, by decide⟩

/-- Claim C8: the UCB1 value of an unvisited child is positive infinity;
for a visited child it is the inverted win rate `1 - wins / visits` plus
the exploring term `1.41 * sqrt (log parentVisits / visits)`. -/
theorem ucb1_spec (child : MCTSNode) (pv : Nat) :
    (child.visits = 0 → ucb1 child pv = ⊤) ∧
      (child.visits ≠ 0 →
        ucb1 child pv =
          (((1 - (child.wins : ℝ) / (child.visits : ℝ)) +
              1.41 * Real.sqrt (Real.log (pv : ℝ) / (child.visits : ℝ)) : ℝ) : EReal)) := by
  constructor
  · intro h
    unfold ucb1
    rw [if_pos h]
  · intro h
    unfold ucb1
    rw [if_neg h]
    rfl

/-- Witness for C8: an unvisited child has value infinity; a child with
3 visits and 1 accumulated win under a parent with 5 visits gets the stated
formula value. -/
theorem ucb1_spec_witness :
    ucb1 (MCTSNode.mk [] none [] 0 0 1 []) 5 = ⊤ ∧
      ucb1 (MCTSNode.mk [] none [] 3 1 1 []) 5 =
        (((1 - ((1 : ℚ) : ℝ) / ((3 : Nat) : ℝ)) +
            1.41 * Real.sqrt (Real.log ((5 : Nat) : ℝ) / ((3 : Nat) : ℝ)) : ℝ) : EReal) :=
  ⟨(ucb1_spec (MCTSNode.mk [] none [] 0 0 1 []) 5).1 rfl,
   (ucb1_spec (MCTSNode.mk [] none [] 3 1 1 []) 5).2 (by decide)⟩
